import Mathlib

/-!
Verification of the storage layer of the NewL social-commerce application.

The relational tables are shallowly embedded as Lean lists of row structures,
and the methods of the `DatabaseStorage` facade (storage.ts) are embedded as
pure functions threading an explicit `DB` state.  Each SQL statement is
modelled by the corresponding list operation: `SELECT ... WHERE` is
`List.filter`, `UPDATE ... WHERE` is `List.map` with a conditional rewrite of
the matched rows, `INSERT` appends, `DELETE ... WHERE` filters the negation,
`ORDER BY` sorts with the order's relation, and `LIMIT` is `List.take`.
Generated uuid primary keys for cart rows are modelled by a fresh-id counter
carried in the state.  Timestamps irrelevant to the verified operations
(`updatedAt` columns) are omitted; `createdAt` is kept on products because
search results are ordered by it.  Nullable `text[]` hashtag columns are
modelled as plain lists, a null array behaving exactly like an empty one in
every embedded operation.
-/

namespace NewL

/-- A row of the `users` table; only the columns touched by the embedded
operations (id and the denormalized follow counters) are modelled. -/
structure User where
  id : String
  followersCount : Int
  followingCount : Int
deriving Repr, DecidableEq

/-- A row of the `products` table, restricted to the columns the embedded
operations read or write. -/
structure Product where
  id : String
  userId : String
  title : String
  description : String
  hashtags : List String
  isAvailable : Bool
  likesCount : Int
  viewsCount : Int
  createdAt : Nat
deriving Repr, DecidableEq

/-- A row of the `follows` table (directed follower → following edge). -/
structure Follow where
  followerId : String
  followingId : String
deriving Repr, DecidableEq

/-- A row of the `product_likes` table. -/
structure ProductLike where
  userId : String
  productId : String
deriving Repr, DecidableEq

/-- A row of the `product_bookmarks` table. -/
structure ProductBookmark where
  userId : String
  productId : String
deriving Repr, DecidableEq

/-- A row of the `cart_items` table. -/
structure CartItem where
  id : Nat
  userId : String
  productId : String
  quantity : Int
deriving Repr, DecidableEq

instance : Inhabited CartItem := ⟨⟨0, "", "", 0⟩⟩

/-- The insert payload accepted by `addToCart` (`InsertCartItem` in
schema.ts); the quantity column is optional with database default 1. -/
structure InsertCartItem where
  userId : String
  productId : String
  quantity : Option Int
deriving Repr, DecidableEq

/-- A row of the `orders` table, restricted to the id and status columns
(the only ones `updateOrderStatus` touches). -/
structure Order where
  id : String
  status : String
deriving Repr, DecidableEq

/-- The database state: one list per table, plus a fresh-id counter
modelling uuid generation for cart rows. -/
structure DB where
  users : List User
  products : List Product
  follows : List Follow
  productLikes : List ProductLike
  productBookmarks : List ProductBookmark
  cartItems : List CartItem
  orders : List Order
  nextCartId : Nat
deriving Repr, DecidableEq

/-- JavaScript truthiness coalescing `x || d` applied to an optional number:
`undefined`, `null` and `0` are all falsy, so they yield the default. -/
def jsOrInt : Option Int → Int → Int
  | none, d => d
  | some q, d => if q = 0 then d else q

/-- The quantity stored by a plain SQL insert of an `InsertCartItem`: an
absent column takes the schema default 1, an explicit value (including 0)
is stored as given. -/
def insertQty : Option Int → Int
  | none => 1
  | some q => q

/-- Case-sensitive substring occurrence test on character lists: does the
first list occur contiguously in the second? -/
def hasSubstr : List Char → List Char → Bool
  | needle, [] => needle.isEmpty
  | needle, c :: rest => isChunkAt needle (c :: rest) || hasSubstr needle rest
where
  /-- Does the first list occur at the very front of the second? -/
  isChunkAt : List Char → List Char → Bool
  | [], _ => true
  | _ :: _, [] => false
  | a :: as, b :: bs => a == b && isChunkAt as bs

/-- SQL LIKE pattern matching over character lists: `%` matches any
(possibly empty) sequence, `_` matches exactly one character, a backslash
escapes the following character, and any other character matches itself.
A pattern ending in a lone escape character matches nothing (Postgres
rejects such a pattern with an error; it cannot arise from the
`'%' ++ query ++ '%'` patterns the source builds, because the trailing
percent sign is then consumed by the escape and read literally). -/
def likeMatch : List Char → List Char → Bool
  | [], t => t.isEmpty
  | c :: ps, t =>
    if c == '%' then t.tails.any (fun s => likeMatch ps s)
    else if c == '_' then
      match t with
      | [] => false
      | _ :: ts => likeMatch ps ts
    else if c == '\\' then
      match ps with
      | [] => false
      | c2 :: ps2 =>
        match t with
        | [] => false
        | b :: ts => c2 == b && likeMatch ps2 ts
    else
      match t with
      | [] => false
      | b :: ts => c == b && likeMatch ps ts

/-- The source's ilike call on the pattern built by interpolating the raw,
unescaped user query between two percent signs — so `%`, `_` and the
backslash inside the query keep their LIKE metacharacter meaning.
Case-insensitivity is modelled by lowering pattern and text characterwise;
lowering fixes the metacharacters, so lowering the interpolated pattern is
the same as interpolating the lowered query. -/
def ilikeContains (hay query : String) : Bool :=
  likeMatch ('%' :: query.data.map Char.toLower ++ ['%']) (hay.data.map Char.toLower)

/-- The claim-side reading of the search contract, stated from the spec's
words: the title or description literally contains the query
case-insensitively (no wildcard interpretation).  It is compared with the
code's `ilikeContains`, with which it agrees exactly on queries free of
LIKE metacharacters. -/
def containsCI (hay query : String) : Bool :=
  hasSubstr (query.data.map Char.toLower) (hay.data.map Char.toLower)

/-- The Postgres array-overlap operator `&&`: do the two lists share an
element? -/
def overlapsArr (xs ys : List String) : Bool :=
  xs.any (fun x => ys.contains x)

/-- The live follower count of a user: a `count()` over `follows` rows whose
`followingId` is the user, as an SQL integer. -/
def liveFollowersCount (db : DB) (userId : String) : Int :=
  ((db.follows.filter (fun f => f.followingId == userId)).length : Int)

/-- The live following count of a user: a `count()` over `follows` rows whose
`followerId` is the user, as an SQL integer. -/
def liveFollowingCount (db : DB) (userId : String) : Int :=
  ((db.follows.filter (fun f => f.followerId == userId)).length : Int)

/-- The live number of `product_likes` edges pointing at a product. -/
def likeEdgeCount (db : DB) (productId : String) : Int :=
  ((db.productLikes.filter (fun l => l.productId == productId)).length : Int)

/-- DatabaseStorage.updateUserStats: recompute both follow counters of the
user from live count queries and store them on the user row. -/
def updateUserStats (db : DB) (userId : String) : DB :=
  let followersCount := liveFollowersCount db userId
  let followingCount := liveFollowingCount db userId
  { db with
    users := db.users.map (fun u =>
      if u.id == userId then
        { u with followersCount := followersCount, followingCount := followingCount }
      else u) }

/-- DatabaseStorage.followUser: insert the follow edge, then recompute the
stats of both parties; returns the inserted edge. -/
def followUser (db : DB) (followerId followingId : String) : Follow × DB :=
  let follow : Follow := ⟨followerId, followingId⟩
  let db1 := { db with follows := db.follows ++ [follow] }
  let db2 := updateUserStats db1 followerId
  let db3 := updateUserStats db2 followingId
  (follow, db3)

/-- DatabaseStorage.unfollowUser: delete all matching follow edges, then
recompute the stats of both parties. -/
def unfollowUser (db : DB) (followerId followingId : String) : DB :=
  let db1 := { db with
    follows := db.follows.filter
      (fun f => !(f.followerId == followerId && f.followingId == followingId)) }
  updateUserStats (updateUserStats db1 followerId) followingId

/-- DatabaseStorage.isFollowingUser: select the matching edges and test
`result.length > 0`. -/
def isFollowingUser (db : DB) (followerId followingId : String) : Bool :=
  decide (0 < (db.follows.filter
    (fun f => f.followerId == followerId && f.followingId == followingId)).length)

/-- DatabaseStorage.likeProduct: insert the like edge, then increment the
product's denormalized `likesCount` by one; returns the inserted edge. -/
def likeProduct (db : DB) (userId productId : String) : ProductLike × DB :=
  let like : ProductLike := ⟨userId, productId⟩
  let db1 := { db with productLikes := db.productLikes ++ [like] }
  (like, { db1 with
    products := db1.products.map (fun p =>
      if p.id == productId then { p with likesCount := p.likesCount + 1 } else p) })

/-- DatabaseStorage.unlikeProduct: delete all matching like edges, then
unconditionally decrement the product's `likesCount` by one. -/
def unlikeProduct (db : DB) (userId productId : String) : DB :=
  let db1 := { db with
    productLikes := db.productLikes.filter
      (fun l => !(l.userId == userId && l.productId == productId)) }
  { db1 with
    products := db1.products.map (fun p =>
      if p.id == productId then { p with likesCount := p.likesCount - 1 } else p) }

/-- DatabaseStorage.addToCart: select the cart rows for the (user, product)
pair; if one exists, update it by id to the summed quantity (JavaScript
coalescing a falsy requested quantity to 1) and return the updated row;
otherwise insert a fresh row. -/
def addToCart (db : DB) (item : InsertCartItem) : CartItem × DB :=
  match db.cartItems.filter
      (fun c => c.userId == item.userId && c.productId == item.productId) with
  | existingItem :: _ =>
    let newQuantity := existingItem.quantity + jsOrInt item.quantity 1
    let updatedRows := db.cartItems.map (fun c =>
      if c.id == existingItem.id then { c with quantity := newQuantity } else c)
    ((updatedRows.filter (fun c => c.id == existingItem.id)).headI,
      { db with cartItems := updatedRows })
  | [] =>
    let newItem : CartItem := ⟨db.nextCartId, item.userId, item.productId, insertQty item.quantity⟩
    (newItem, { db with
      cartItems := db.cartItems ++ [newItem],
      nextCartId := db.nextCartId + 1 })

/-- The `ORDER BY likesCount DESC, viewsCount DESC` relation used by
`getTrendingProducts`. -/
def trendR (a b : Product) : Prop :=
  b.likesCount < a.likesCount ∨
    (a.likesCount = b.likesCount ∧ b.viewsCount ≤ a.viewsCount)

instance : DecidableRel trendR := fun a b => by unfold trendR; infer_instance

instance : IsTotal Product trendR := ⟨by intro a b; unfold trendR; omega⟩

instance : IsTrans Product trendR := ⟨by intro a b c; unfold trendR; omega⟩

/-- The `ORDER BY createdAt DESC` relation used by `searchProducts`. -/
def newestR (a b : Product) : Prop := b.createdAt ≤ a.createdAt

instance : DecidableRel newestR := fun a b => by unfold newestR; infer_instance

instance : IsTotal Product newestR := ⟨by intro a b; unfold newestR; omega⟩

instance : IsTrans Product newestR := ⟨by intro a b c; unfold newestR; omega⟩

/-- The `ORDER BY likesCount DESC` relation used by
`getRecommendedProducts`. -/
def likesGeR (a b : Product) : Prop := b.likesCount ≤ a.likesCount

instance : DecidableRel likesGeR := fun a b => by unfold likesGeR; infer_instance

instance : IsTotal Product likesGeR := ⟨by intro a b; unfold likesGeR; omega⟩

instance : IsTrans Product likesGeR := ⟨by intro a b c; unfold likesGeR; omega⟩

/-- The descending-count comparison used by `getTrendingHashtags`'s
`sort((a, b) => b.count - a.count)`. -/
def countGeR (a b : String × Nat) : Prop := b.2 ≤ a.2

instance : DecidableRel countGeR := fun a b => by unfold countGeR; infer_instance

instance : IsTotal (String × Nat) countGeR := ⟨by intro a b; unfold countGeR; omega⟩

instance : IsTrans (String × Nat) countGeR := ⟨by intro a b c; unfold countGeR; omega⟩

/-- DatabaseStorage.searchProducts: available products whose title or
description matches the ILIKE pattern built from the query (wildcards
included), intersected with the optional hashtag filter when it is
non-empty, ordered newest first. -/
def searchProducts (db : DB) (query : String) (hashtags : Option (List String)) :
    List Product :=
  let baseCond : Product → Bool := fun p =>
    p.isAvailable && (ilikeContains p.title query || ilikeContains p.description query)
  let conditions : Product → Bool :=
    match hashtags with
    | some hs =>
      if hs.length > 0 then (fun p => baseCond p && overlapsArr p.hashtags hs)
      else baseCond
    | none => baseCond
  List.insertionSort newestR (db.products.filter conditions)

/-- DatabaseStorage.getTrendingProducts: available products ordered by likes
descending then views descending, truncated to the limit. -/
def getTrendingProducts (db : DB) (limit : Nat) : List Product :=
  (List.insertionSort trendR (db.products.filter (fun p => p.isAvailable))).take limit

/-- One step of the in-memory frequency count of `getTrendingHashtags`: a
JavaScript `Map` bump, incrementing an existing key in place or appending a
new key with count 1. -/
def bumpTag (m : List (String × Nat)) (tag : String) : List (String × Nat) :=
  if m.any (fun e => e.1 == tag) then
    m.map (fun e => if e.1 == tag then (e.1, e.2 + 1) else e)
  else m ++ [(tag, 1)]

/-- The hashtag frequency table built by `getTrendingHashtags`'s double loop
over the available products' hashtag lists. -/
def hashtagCounts (ps : List Product) : List (String × Nat) :=
  ps.foldl (fun m p => p.hashtags.foldl bumpTag m) []

/-- The full sorted (hashtag, count) list of `getTrendingHashtags` before
truncation. -/
def trendingHashtagsFull (db : DB) : List (String × Nat) :=
  List.insertionSort countGeR (hashtagCounts (db.products.filter (fun p => p.isAvailable)))

/-- DatabaseStorage.getTrendingHashtags: count hashtag frequency over
available products, sort by count descending, truncate to the limit. -/
def getTrendingHashtags (db : DB) (limit : Nat) : List (String × Nat) :=
  (trendingHashtagsFull db).take limit

/-- The concatenation of the hashtag lists of all available products, in
table order: the multiset `getTrendingHashtags` counts over. -/
def availableTags (db : DB) : List String :=
  (db.products.filter (fun p => p.isAvailable)).foldr (fun p acc => p.hashtags ++ acc) []

/-- Occurrence count of a tag in a list of tags. -/
def tagOcc (ts : List String) (t : String) : Nat :=
  (ts.filter (fun s => s == t)).length

/-- Occurrence frequency of a hashtag over the available products. -/
def tagFrequency (db : DB) (t : String) : Nat :=
  tagOcc (availableTags db) t

/-- Total count stored in a frequency table under a given key (the sum of
the matching entries' counts; with nodup keys, the single entry's count or
zero). -/
def keyCount (m : List (String × Nat)) (t : String) : Nat :=
  ((m.filter (fun e => e.1 == t)).map (fun e => e.2)).sum

/-- DatabaseStorage.getRecommendedProducts: gather the product ids the user
liked or bookmarked; with none, fall back to trending; otherwise collect
those products' hashtags into a set, falling back to trending if the set is
empty, and return available products overlapping the set ordered by likes
descending, truncated to the limit. -/
def getRecommendedProducts (db : DB) (userId : String) (limit : Nat) : List Product :=
  let userInteractions :=
    (db.productLikes.filter (fun l => l.userId == userId)).map (fun l => l.productId)
  let bookmarks :=
    (db.productBookmarks.filter (fun b => b.userId == userId)).map (fun b => b.productId)
  let interactedProductIds := userInteractions ++ bookmarks
  if interactedProductIds.length = 0 then
    getTrendingProducts db limit
  else
    let interactedProducts :=
      db.products.filter (fun p => interactedProductIds.contains p.id)
    let userHashtags :=
      (interactedProducts.foldr (fun p acc => p.hashtags ++ acc) []).dedup
    if userHashtags.length = 0 then
      getTrendingProducts db limit
    else
      (List.insertionSort likesGeR (db.products.filter
        (fun p => p.isAvailable && overlapsArr p.hashtags userHashtags))).take limit

/-- DatabaseStorage.updateOrderStatus: set the status of every order row
with the given id (the primary key) and return the first updated row, or
`none` when no row matched. -/
def updateOrderStatus (db : DB) (oid status : String) : Option Order × DB :=
  let updated := db.orders.map (fun o =>
    if o.id == oid then { o with status := status } else o)
  ((updated.filter (fun o => o.id == oid)).head?, { db with orders := updated })

/-- The hashtag clause of the `searchProducts` contract: when a hashtag
list is supplied and non-empty, the product's hashtag set must intersect
it; otherwise no constraint. -/
def hashtagCond (hashtags : Option (List String)) (p : Product) : Prop :=
  match hashtags with
  | some hs => hs.length > 0 → overlapsArr p.hashtags hs = true
  | none => True

instance (hashtags : Option (List String)) (p : Product) :
    Decidable (hashtagCond hashtags p) := by
  unfold hashtagCond
  cases hashtags with
  | none => exact isTrue trivial
  | some hs => infer_instance

/-- An `UPDATE ... WHERE` that rewrites rows without touching the filtered
column commutes with the filter. -/
theorem filter_map_pres {α : Type} (f : α → α) (p : α → Bool)
    (h : ∀ a, p (f a) = p a) :
    ∀ l : List α, (l.map f).filter p = (l.filter p).map f := by
  intro l
  induction l with
  | nil => rfl
  | cons a t ih =>
    simp only [List.map_cons, List.filter_cons, h a]
    cases hpa : p a <;> simp [ih]

/-- Filtering a table on a key column under the key-uniqueness invariant of
a primary key returns exactly the one row carrying that key. -/
theorem filter_eq_singleton_of_nodup_key {α κ : Type} [DecidableEq κ] (key : α → κ) :
    ∀ (l : List α), (l.map key).Nodup → ∀ a ∈ l, ∀ p : α → Bool,
      (∀ x, p x = (key x == key a)) → l.filter p = [a] := by
  intro l
  induction l with
  | nil => intro _ a ha; cases ha
  | cons b t ih =>
    intro hnd a ha p hp
    simp only [List.map_cons, List.nodup_cons] at hnd
    rcases List.mem_cons.mp ha with rfl | hat
    · rw [List.filter_cons_of_pos (by simp [hp])]
      have ht : t.filter p = [] := by
        rw [List.filter_eq_nil_iff]
        intro x hx
        rw [hp x]
        simp only [beq_iff_eq, Bool.not_eq_true]
        intro hkey
        exact absurd (hkey ▸ List.mem_map_of_mem key hx) hnd.1
      rw [ht]
    · have hkb : (key b == key a) = false := by
        simp only [beq_eq_false_iff_ne, ne_eq]
        intro he
        exact hnd.1 (he ▸ List.mem_map_of_mem key hat)
      rw [List.filter_cons_of_neg (by simp [hp, hkb])]
      exact ih hnd.2 a hat p hp

/-- C3: liking then unliking a product leaves the whole products table —
in particular every product's `likesCount` — exactly as it was: the +1 of
`likeProduct` is cancelled by the -1 of `unlikeProduct`. -/
theorem like_unlike_roundtrip (db : DB) (u p : String) :
    (unlikeProduct (likeProduct db u p).2 u p).products = db.products := by
  simp only [likeProduct, unlikeProduct, List.map_map]
  conv_rhs => rw [← List.map_id db.products]
  apply List.map_congr_left
  intro r _
  by_cases h : r.id == p <;> simp [h, Function.comp]

/-- C8: `isFollowingUser a b` is true in the state immediately after
`followUser a b` and false in the state immediately after
`unfollowUser a b`. -/
theorem isFollowingUser_follow_unfollow (db : DB) (a b : String) :
    isFollowingUser (followUser db a b).2 a b = true ∧
    isFollowingUser (unfollowUser db a b) a b = false := by
  constructor
  · simp [isFollowingUser, followUser, updateUserStats, List.filter_append]
  · simp [isFollowingUser, unfollowUser, updateUserStats, List.filter_filter]

/-- C4: for a user with no like rows and no bookmark rows,
`getRecommendedProducts` returns exactly `getTrendingProducts` of the same
limit on the same state. -/
theorem getRecommendedProducts_fallback (db : DB) (u : String) (limit : Nat)
    (hl : db.productLikes.filter (fun l => l.userId == u) = [])
    (hb : db.productBookmarks.filter (fun b => b.userId == u) = []) :
    getRecommendedProducts db u limit = getTrendingProducts db limit := by
  simp [getRecommendedProducts, hl, hb]

/-- C4 witness: the fallback equality at a concrete state in which another
user has a like row but the queried user has none. -/
theorem getRecommendedProducts_fallback_witness :
    (DB.mk [] [⟨"p1", "s", "T", "D", ["x"], true, 3, 1, 10⟩] [] [⟨"other", "p9"⟩] [] [] [] 0).productLikes.filter
        (fun l => l.userId == "u") = [] ∧
    (DB.mk [] [⟨"p1", "s", "T", "D", ["x"], true, 3, 1, 10⟩] [] [⟨"other", "p9"⟩] [] [] [] 0).productBookmarks.filter
        (fun b => b.userId == "u") = [] ∧
    getRecommendedProducts
        (DB.mk [] [⟨"p1", "s", "T", "D", ["x"], true, 3, 1, 10⟩] [] [⟨"other", "p9"⟩] [] [] [] 0) "u" 5
      = getTrendingProducts
        (DB.mk [] [⟨"p1", "s", "T", "D", ["x"], true, 3, 1, 10⟩] [] [⟨"other", "p9"⟩] [] [] [] 0) 5 :=
  ⟨by decide, by decide,
    getRecommendedProducts_fallback _ "u" 5 (by decide) (by decide)⟩

/-- C10: when no matching like edge exists, `unlikeProduct` deletes nothing
from the edge table yet still decrements the product's stored `likesCount`,
leaving a counter that was equal to the live edge count strictly below it. -/
theorem unlikeProduct_without_edge (db : DB) (u p : String)
    (hno : db.productLikes.filter (fun l => l.userId == u && l.productId == p) = []) :
    (unlikeProduct db u p).productLikes = db.productLikes ∧
    (∀ r ∈ db.products, r.id = p →
      { r with likesCount := r.likesCount - 1 } ∈ (unlikeProduct db u p).products) ∧
    (∀ r ∈ db.products, r.id = p → r.likesCount = likeEdgeCount db p →
      r.likesCount - 1 < likeEdgeCount (unlikeProduct db u p) p) := by
  have hlikes : (unlikeProduct db u p).productLikes = db.productLikes := by
    simp only [unlikeProduct]
    rw [List.filter_eq_self]
    intro l hl
    have := (List.filter_eq_nil_iff.mp hno) l hl
    simp only [Bool.not_eq_true] at this ⊢
    simp [this]
  refine ⟨hlikes, ?_, ?_⟩
  · intro r hr hrp
    simp only [unlikeProduct]
    have : (fun x : Product => if x.id == p then { x with likesCount := x.likesCount - 1 } else x) r
        = { r with likesCount := r.likesCount - 1 } := by simp [hrp]
    exact this ▸ List.mem_map_of_mem _ hr
  · intro r _ _ hcnt
    have hedge : likeEdgeCount (unlikeProduct db u p) p = likeEdgeCount db p := by
      simp only [likeEdgeCount, hlikes]
    rw [hedge, ← hcnt]
    omega

/-- C10 witness: a state with one product of `likesCount` 0 and no like
edges; the decremented counter -1 is strictly below the unchanged live edge
count 0 (and negative). -/
theorem unlikeProduct_without_edge_witness :
    (DB.mk [] [⟨"p1", "s", "T", "D", [], true, 0, 0, 1⟩] [] [] [] [] [] 0).productLikes.filter
        (fun l => l.userId == "u" && l.productId == "p1") = [] ∧
    (⟨"p1", "s", "T", "D", [], true, 0 - 1, 0, 1⟩ : Product)
      ∈ (unlikeProduct (DB.mk [] [⟨"p1", "s", "T", "D", [], true, 0, 0, 1⟩] [] [] [] [] [] 0) "u" "p1").products ∧
    (0 : Int) - 1 <
      likeEdgeCount (unlikeProduct (DB.mk [] [⟨"p1", "s", "T", "D", [], true, 0, 0, 1⟩] [] [] [] [] [] 0) "u" "p1") "p1" :=
  ⟨by decide,
    (unlikeProduct_without_edge (DB.mk [] [⟨"p1", "s", "T", "D", [], true, 0, 0, 1⟩] [] [] [] [] [] 0)
        "u" "p1" (by decide)).2.1 ⟨"p1", "s", "T", "D", [], true, 0, 0, 1⟩ (by decide) rfl,
    (unlikeProduct_without_edge (DB.mk [] [⟨"p1", "s", "T", "D", [], true, 0, 0, 1⟩] [] [] [] [] [] 0)
        "u" "p1" (by decide)).2.2 ⟨"p1", "s", "T", "D", [], true, 0, 0, 1⟩ (by decide) rfl (by decide)⟩

/-- C9: `updateOrderStatus` stores any status string on the matched order
unconditionally — no transition graph is enforced — and returns the updated
row; unmatched rows are untouched. -/
theorem updateOrderStatus_spec (db : DB) (oid s : String) (o : Order)
    (ho : o ∈ db.orders) (hid : o.id = oid)
    (hnd : (db.orders.map (fun x => x.id)).Nodup) :
    (updateOrderStatus db oid s).1 = some { o with status := s } ∧
    (∀ o' ∈ (updateOrderStatus db oid s).2.orders, o'.id = oid → o'.status = s) ∧
    (∀ o' ∈ (updateOrderStatus db oid s).2.orders, o'.id ≠ oid → o' ∈ db.orders) := by
  refine ⟨?_, ?_, ?_⟩
  · simp only [updateOrderStatus]
    rw [filter_map_pres _ _ (by intro x; by_cases hx : x.id == oid <;> simp [hx])]
    rw [filter_eq_singleton_of_nodup_key (fun x : Order => x.id) db.orders hnd o ho _
      (by intro x; rw [← hid])]
    simp [hid]
  · intro o' ho' hoid
    simp only [updateOrderStatus] at ho'
    obtain ⟨v, hv, rfl⟩ := List.mem_map.mp ho'
    by_cases hx : v.id == oid
    · simp [hx]
    · rw [if_neg (by simp [hx])] at hoid ⊢
      exact absurd hoid (by simpa using hx)
  · intro o' ho' hoid
    simp only [updateOrderStatus] at ho'
    obtain ⟨v, hv, rfl⟩ := List.mem_map.mp ho'
    by_cases hx : v.id == oid
    · exfalso
      apply hoid
      simp [hx]
      exact (beq_iff_eq.mp hx)
    · simpa [hx] using hv

/-- C9 witness: updating a shipped order back to pending succeeds — the
permissive update at a concrete two-row order table. -/
theorem updateOrderStatus_spec_witness :
    (⟨"o1", "shipped"⟩ : Order) ∈ (DB.mk [] [] [] [] [] [] [⟨"o1", "shipped"⟩, ⟨"o2", "pending"⟩] 0).orders ∧
    (updateOrderStatus (DB.mk [] [] [] [] [] [] [⟨"o1", "shipped"⟩, ⟨"o2", "pending"⟩] 0) "o1" "pending").1
      = some ⟨"o1", "pending"⟩ :=
  ⟨by decide,
    (updateOrderStatus_spec (DB.mk [] [] [] [] [] [] [⟨"o1", "shipped"⟩, ⟨"o2", "pending"⟩] 0)
        "o1" "pending" ⟨"o1", "shipped"⟩ (by decide) rfl (by decide)).1⟩

/-- The first cart-merge branch of `addToCart`: with exactly one existing
row for the pair, the state keeps exactly one (rewritten) row for the pair,
and — under the primary-key invariant — that row is what is returned. -/
theorem addToCart_existing (db : DB) (u p : String) (qopt : Option Int) (c0 : CartItem)
    (h : db.cartItems.filter (fun c => c.userId == u && c.productId == p) = [c0]) :
    (addToCart db ⟨u, p, qopt⟩).2.cartItems.filter
        (fun c => c.userId == u && c.productId == p)
      = [{ c0 with quantity := c0.quantity + jsOrInt qopt 1 }] ∧
    ((db.cartItems.map (fun c => c.id)).Nodup →
      (addToCart db ⟨u, p, qopt⟩).1
        = { c0 with quantity := c0.quantity + jsOrInt qopt 1 }) := by
  have hc0 : c0 ∈ db.cartItems :=
    List.mem_of_mem_filter (h ▸ List.mem_singleton_self c0)
  unfold addToCart
  split
  · rename_i existingItem rest heq
    rw [h] at heq
    injection heq with h1 h2
    subst h1
    constructor
    · rw [filter_map_pres _ _ (by intro x; by_cases hx : x.id == c0.id <;> simp [hx])]
      rw [h]
      simp
    · intro hnd
      simp only
      rw [filter_map_pres _ _ (by intro x; by_cases hx : x.id == c0.id <;> simp [hx])]
      rw [filter_eq_singleton_of_nodup_key (fun c : CartItem => c.id) db.cartItems hnd c0 hc0 _
        (fun x => rfl)]
      simp
  · rename_i heq
    rw [h] at heq
    cases heq

/-- The second branch of `addToCart`: with no existing row for the pair, a
fresh row with the insert-default quantity is appended and returned. -/
theorem addToCart_new (db : DB) (u p : String) (qopt : Option Int)
    (h : db.cartItems.filter (fun c => c.userId == u && c.productId == p) = []) :
    (addToCart db ⟨u, p, qopt⟩).1 = ⟨db.nextCartId, u, p, insertQty qopt⟩ ∧
    (addToCart db ⟨u, p, qopt⟩).2.cartItems
      = db.cartItems ++ [⟨db.nextCartId, u, p, insertQty qopt⟩] ∧
    (addToCart db ⟨u, p, qopt⟩).2.nextCartId = db.nextCartId + 1 := by
  unfold addToCart
  split
  · rename_i existingItem rest heq
    rw [h] at heq
    cases heq
  · exact ⟨rfl, rfl, rfl⟩

/-- C1 counterexample: with an existing cart row of quantity 5, requesting
quantity 0 does not produce 5 + 0 — the JavaScript truthiness default turns
the requested 0 into 1, yielding 6. -/
theorem addToCart_zero_quantity_cex :
    ¬ ((addToCart (DB.mk [] [] [] [] [] [⟨0, "u", "p", 5⟩] [] 1) ⟨"u", "p", some 0⟩).1.quantity
        = 5 + 0) := by decide

/-- C1 (amended): for a nonzero requested quantity `q`, `addToCart` merges
into the unique existing row for the pair, returning it with quantity
`q0 + q` and leaving exactly one row for the pair; with no existing row it
appends a single fresh row, and adding the pair twice (nonzero quantities
`q` then `q'`) leaves exactly one row carrying the summed quantity
`q + q'`. -/
theorem addToCart_merge (db : DB) (u p : String) (q q' : Int)
    (hq : q ≠ 0) (hq' : q' ≠ 0)
    (hnd : (db.cartItems.map (fun c => c.id)).Nodup) :
    (∀ c0, db.cartItems.filter (fun c => c.userId == u && c.productId == p) = [c0] →
      (addToCart db ⟨u, p, some q⟩).1 = { c0 with quantity := c0.quantity + q } ∧
      (addToCart db ⟨u, p, some q⟩).2.cartItems.filter
          (fun c => c.userId == u && c.productId == p)
        = [{ c0 with quantity := c0.quantity + q }]) ∧
    (db.cartItems.filter (fun c => c.userId == u && c.productId == p) = [] →
      (addToCart db ⟨u, p, some q⟩).1 = ⟨db.nextCartId, u, p, q⟩ ∧
      (addToCart db ⟨u, p, some q⟩).2.cartItems
        = db.cartItems ++ [⟨db.nextCartId, u, p, q⟩] ∧
      (addToCart db ⟨u, p, some q⟩).2.cartItems.filter
          (fun c => c.userId == u && c.productId == p)
        = [⟨db.nextCartId, u, p, q⟩] ∧
      (addToCart (addToCart db ⟨u, p, some q⟩).2 ⟨u, p, some q'⟩).2.cartItems.filter
          (fun c => c.userId == u && c.productId == p)
        = [⟨db.nextCartId, u, p, q + q'⟩]) := by
  have hjs : jsOrInt (some q) 1 = q := by simp [jsOrInt, hq]
  have hjs' : jsOrInt (some q') 1 = q' := by simp [jsOrInt, hq']
  have hins : insertQty (some q) = q := rfl
  constructor
  · intro c0 h
    have := addToCart_existing db u p (some q) c0 h
    rw [hjs] at this
    exact ⟨this.2 hnd, this.1⟩
  · intro h
    obtain ⟨hret, hstate, _⟩ := addToCart_new db u p (some q) h
    rw [hins] at hret hstate
    have hfilter1 : (addToCart db ⟨u, p, some q⟩).2.cartItems.filter
        (fun c => c.userId == u && c.productId == p) = [⟨db.nextCartId, u, p, q⟩] := by
      rw [hstate, List.filter_append, h]
      simp
    refine ⟨hret, hstate, hfilter1, ?_⟩
    have := (addToCart_existing (addToCart db ⟨u, p, some q⟩).2 u p (some q')
      ⟨db.nextCartId, u, p, q⟩ hfilter1).1
    rw [hjs'] at this
    exact this

/-- C1 witness (amended theorem): a cart holding one row for the pair with
quantity 5 merges a request for 3 into quantity 8; a fresh pair added with
3 and then 2 ends as one row of quantity 5. -/
theorem addToCart_merge_witness :
    (3 : Int) ≠ 0 ∧ (2 : Int) ≠ 0 ∧
    (addToCart (DB.mk [] [] [] [] [] [⟨7, "u", "p", 5⟩] [] 8) ⟨"u", "p", some 3⟩).1
      = ⟨7, "u", "p", 5 + 3⟩ ∧
    (addToCart (addToCart (DB.mk [] [] [] [] [] [] [] 0) ⟨"u", "p", some 3⟩).2
        ⟨"u", "p", some 2⟩).2.cartItems.filter
        (fun c => c.userId == "u" && c.productId == "p")
      = [⟨0, "u", "p", 3 + 2⟩] :=
  ⟨by decide, by decide,
    ((addToCart_merge (DB.mk [] [] [] [] [] [⟨7, "u", "p", 5⟩] [] 8) "u" "p" 3 2
        (by decide) (by decide) (by decide)).1 ⟨7, "u", "p", 5⟩ (by decide)).1,
    ((addToCart_merge (DB.mk [] [] [] [] [] [] [] 0) "u" "p" 3 2
        (by decide) (by decide) (by decide)).2 (by decide)).2.2.2⟩

/-- Rows produced by `updateUserStats`: a row carrying the recomputed id
holds exactly the live counts of the pre-state, and any other row was
already present unchanged. -/
theorem mem_users_updateUserStats (db : DB) (x : String) (u : User)
    (hu : u ∈ (updateUserStats db x).users) :
    (u.id = x → u.followersCount = liveFollowersCount db x ∧
      u.followingCount = liveFollowingCount db x) ∧
    (u.id ≠ x → u ∈ db.users) := by
  simp only [updateUserStats] at hu
  obtain ⟨v, hv, rfl⟩ := List.mem_map.mp hu
  by_cases h1 : v.id == x
  · constructor
    · intro _
      simp [h1]
    · intro hne
      exfalso
      apply hne
      simp only [if_pos h1]
      exact beq_iff_eq.mp h1
  · constructor
    · intro he
      exfalso
      rw [if_neg (by simp [h1])] at he
      exact absurd he (by simpa using h1)
    · intro _
      simpa [h1] using hv

/-- After recomputing the stats of `a` and then of `b` (in either enclosing
operation), every user row for `a` or `b` carries exactly the live counts
of the final state — `updateUserStats` never touches `follows`. -/
theorem double_updateUserStats_spec (db1 : DB) (a b : String) :
    ∀ u ∈ (updateUserStats (updateUserStats db1 a) b).users, (u.id = a ∨ u.id = b) →
      u.followersCount
        = liveFollowersCount (updateUserStats (updateUserStats db1 a) b) u.id ∧
      u.followingCount
        = liveFollowingCount (updateUserStats (updateUserStats db1 a) b) u.id := by
  intro u hu hab
  have h2 := mem_users_updateUserStats (updateUserStats db1 a) b u hu
  by_cases hb : u.id = b
  · rw [hb]
    exact h2.1 hb
  · have hu' : u ∈ (updateUserStats db1 a).users := h2.2 hb
    have ha : u.id = a := hab.resolve_right hb
    have h3 := (mem_users_updateUserStats db1 a u hu').1 ha
    rw [ha]
    exact h3

/-- C2: immediately after `followUser a b`, and immediately after
`unfollowUser a b`, every stored user row for `a` or `b` has
`followersCount` equal to the live count of follow edges pointing at it and
`followingCount` equal to the live count of follow edges leaving it — both
recomputed from count queries, not adjusted by increments. -/
theorem follow_unfollow_recomputes_stats (db : DB) (a b : String) :
    (∀ u ∈ ((followUser db a b).2).users, (u.id = a ∨ u.id = b) →
      u.followersCount = liveFollowersCount (followUser db a b).2 u.id ∧
      u.followingCount = liveFollowingCount (followUser db a b).2 u.id) ∧
    (∀ u ∈ (unfollowUser db a b).users, (u.id = a ∨ u.id = b) →
      u.followersCount = liveFollowersCount (unfollowUser db a b) u.id ∧
      u.followingCount = liveFollowingCount (unfollowUser db a b) u.id) := by
  constructor
  · exact fun u hu hab =>
      double_updateUserStats_spec { db with follows := db.follows ++ [⟨a, b⟩] } a b u hu hab
  · exact fun u hu hab =>
      double_updateUserStats_spec
        { db with follows := db.follows.filter (fun f => !(f.followerId == a && f.followingId == b)) }
        a b u hu hab

/-- C2 witness: following from a two-user state; the follower's row ends
with counters (0 followers, 1 following), matching the live counts. -/
theorem follow_unfollow_recomputes_stats_witness :
    (⟨"a", 0, 1⟩ : User)
      ∈ ((followUser (DB.mk [⟨"a", 0, 0⟩, ⟨"b", 5, 5⟩] [] [] [] [] [] [] 0) "a" "b").2).users ∧
    (⟨"a", 0, 1⟩ : User).followersCount
      = liveFollowersCount
          (followUser (DB.mk [⟨"a", 0, 0⟩, ⟨"b", 5, 5⟩] [] [] [] [] [] [] 0) "a" "b").2
          (⟨"a", 0, 1⟩ : User).id ∧
    (⟨"a", 0, 1⟩ : User).followingCount
      = liveFollowingCount
          (followUser (DB.mk [⟨"a", 0, 0⟩, ⟨"b", 5, 5⟩] [] [] [] [] [] [] 0) "a" "b").2
          (⟨"a", 0, 1⟩ : User).id :=
  ⟨by decide,
    ((follow_unfollow_recomputes_stats (DB.mk [⟨"a", 0, 0⟩, ⟨"b", 5, 5⟩] [] [] [] [] [] [] 0)
        "a" "b").1 ⟨"a", 0, 1⟩ (by decide) (Or.inl rfl)).1,
    ((follow_unfollow_recomputes_stats (DB.mk [⟨"a", 0, 0⟩, ⟨"b", 5, 5⟩] [] [] [] [] [] [] 0)
        "a" "b").1 ⟨"a", 0, 1⟩ (by decide) (Or.inl rfl)).2⟩

/-- The cons equation of `likeMatch` with a variable head character. -/
theorem likeMatch_cons_eq (c : Char) (ps t : List Char) :
    likeMatch (c :: ps) t =
      (if c == '%' then t.tails.any (fun s => likeMatch ps s)
      else if c == '_' then
        match t with
        | [] => false
        | _ :: ts => likeMatch ps ts
      else if c == '\\' then
        match ps with
        | [] => false
        | c2 :: ps2 =>
          match t with
          | [] => false
          | b :: ts => c2 == b && likeMatch ps2 ts
      else
        match t with
        | [] => false
        | b :: ts => c == b && likeMatch ps ts) := by
  rw [likeMatch.eq_def]

/-- A metacharacter-free pattern followed by a single trailing `%` matches
a text exactly when the pattern is a literal chunk at the text's front. -/
theorem likeMatch_chunk (q : List Char) (hq : ∀ c ∈ q, c ≠ '%' ∧ c ≠ '_' ∧ c ≠ '\\') :
    ∀ s, likeMatch (q ++ ['%']) s = hasSubstr.isChunkAt q s := by
  induction q with
  | nil =>
    intro s
    rw [List.nil_append, likeMatch_cons_eq, if_pos (by simp)]
    have hch : hasSubstr.isChunkAt [] s = true := rfl
    rw [hch, List.any_eq_true]
    exact ⟨[], by rw [List.mem_tails]; exact List.nil_suffix, rfl⟩
  | cons c q ih =>
    intro s
    obtain ⟨hc1, hc2, hc3⟩ := hq c (List.mem_cons_self c q)
    have hb1 : (c == '%') = false := by simpa using hc1
    have hb2 : (c == '_') = false := by simpa using hc2
    have hb3 : (c == '\\') = false := by simpa using hc3
    have ih' := ih (fun x hx => hq x (List.mem_cons_of_mem c hx))
    cases s with
    | nil => simp [likeMatch_cons_eq, hasSubstr.isChunkAt, hb1, hb2, hb3]
    | cons b ss => simp [likeMatch_cons_eq, hasSubstr.isChunkAt, hb1, hb2, hb3, ih' ss]

/-- Literal substring search is chunk matching tried at every suffix. -/
theorem hasSubstr_eq_any_tails (q : List Char) :
    ∀ t, hasSubstr q t = t.tails.any (fun s => hasSubstr.isChunkAt q s) := by
  intro t
  induction t with
  | nil => cases q <;> simp [hasSubstr, hasSubstr.isChunkAt]
  | cons c rest ih => simp [hasSubstr, List.tails_cons, ih]

/-- On a metacharacter-free query, the pattern `%query%` matches exactly
the texts containing the query as a literal substring. -/
theorem likeMatch_sandwich (q t : List Char) (hq : ∀ c ∈ q, c ≠ '%' ∧ c ≠ '_' ∧ c ≠ '\\') :
    likeMatch ('%' :: q ++ ['%']) t = hasSubstr q t := by
  rw [List.cons_append, likeMatch_cons_eq, if_pos (by simp), hasSubstr_eq_any_tails]
  congr 1
  funext s
  exact likeMatch_chunk q hq s

/-- Lowercasing never produces a character outside the lowercase-letter
range, so it cannot introduce a LIKE metacharacter. -/
theorem toLower_ne_meta (c m : Char) (hne : c ≠ m)
    (hm : ¬ (97 ≤ m.toNat ∧ m.toNat ≤ 122)) : c.toLower ≠ m := by
  unfold Char.toLower
  simp only []
  by_cases h : c.toNat ≥ 65 ∧ c.toNat ≤ 90
  · rw [if_pos h]
    intro heq
    apply hm
    have hval : (Char.ofNat (c.toNat + 32)).toNat = c.toNat + 32 := by
      unfold Char.ofNat
      rw [dif_pos (Or.inl (by omega))]
      simp [Char.ofNatAux, Char.toNat, UInt32.toNat]
    rw [← heq, hval]
    omega
  · rw [if_neg h]
    exact hne

/-- On queries free of LIKE metacharacters the code's ILIKE test coincides
with literal case-insensitive containment. -/
theorem ilikeContains_eq_containsCI (hay query : String)
    (hq : ∀ c ∈ query.data, c ≠ '%' ∧ c ≠ '_' ∧ c ≠ '\\') :
    ilikeContains hay query = containsCI hay query := by
  unfold ilikeContains containsCI
  rw [likeMatch_sandwich]
  intro c hc
  obtain ⟨c0, hc0, rfl⟩ := List.mem_map.mp hc
  obtain ⟨h1, h2, h3⟩ := hq c0 hc0
  exact ⟨toLower_ne_meta c0 '%' h1 (by decide),
    toLower_ne_meta c0 '_' h2 (by decide),
    toLower_ne_meta c0 '\\' h3 (by decide)⟩

/-- C5 counterexample: the query string consisting of the single character
`_` is interpolated unescaped into the ILIKE pattern, where it matches any
one character — so a product whose title and description do not contain
`_` at all is nevertheless returned. -/
theorem searchProducts_wildcard_cex :
    (⟨"p1", "s", "Hat", "cap", [], true, 0, 0, 1⟩ : Product)
      ∈ searchProducts
          (DB.mk [] [⟨"p1", "s", "Hat", "cap", [], true, 0, 0, 1⟩] [] [] [] [] [] 0)
          "_" none ∧
    containsCI "Hat" "_" = false ∧
    containsCI "cap" "_" = false := by decide

/-- C5 (amended): for every query free of the LIKE metacharacters `%`, `_`
and the backslash, `searchProducts` returns exactly the available products
whose title or description contains the query case-insensitively,
restricted to those whose hashtag set intersects the supplied list when it
is present and non-empty, ordered by creation time descending (no
relevance ranking); a query containing a metacharacter reaches the ILIKE
pattern unescaped and is interpreted as a wildcard instead. -/
theorem searchProducts_spec_amended (db : DB) (query : String)
    (hashtags : Option (List String))
    (hq : ∀ c ∈ query.data, c ≠ '%' ∧ c ≠ '_' ∧ c ≠ '\\') :
    (∀ p : Product, p ∈ searchProducts db query hashtags ↔
      (p ∈ db.products ∧ p.isAvailable = true ∧
        (containsCI p.title query = true ∨ containsCI p.description query = true) ∧
        hashtagCond hashtags p)) ∧
    (searchProducts db query hashtags).Sorted newestR := by
  have hck : ∀ hay, ilikeContains hay query = containsCI hay query :=
    fun hay => ilikeContains_eq_containsCI hay query hq
  constructor
  · intro p
    simp only [searchProducts]
    rw [List.mem_insertionSort, List.mem_filter]
    cases hashtags with
    | none => simp [hashtagCond, hck, and_assoc]
    | some hs =>
      by_cases h0 : hs.length > 0
      · simp [hashtagCond, h0, hck, and_assoc]
      · simp [hashtagCond, h0, hck, and_assoc]
  · exact List.sorted_insertionSort newestR _

/-- C5 witness (amended theorem): the metacharacter-free query "shoe" with
hashtag filter "vintage" returns the product titled "Red Shoe" carrying
that hashtag. -/
theorem searchProducts_spec_amended_witness :
    (∀ c ∈ "shoe".data, c ≠ '%' ∧ c ≠ '_' ∧ c ≠ '\\') ∧
    (⟨"p1", "s", "Red Shoe", "old", ["vintage"], true, 0, 0, 2⟩ : Product)
      ∈ searchProducts
          (DB.mk [] [⟨"p1", "s", "Red Shoe", "old", ["vintage"], true, 0, 0, 2⟩,
            ⟨"p2", "s", "Hat", "new", ["vintage"], true, 0, 0, 3⟩] [] [] [] [] [] 0)
          "shoe" (some ["vintage"]) :=
  ⟨by decide,
    ((searchProducts_spec_amended
        (DB.mk [] [⟨"p1", "s", "Red Shoe", "old", ["vintage"], true, 0, 0, 2⟩,
          ⟨"p2", "s", "Hat", "new", ["vintage"], true, 0, 0, 3⟩] [] [] [] [] [] 0)
        "shoe" (some ["vintage"]) (by decide)).1 _).mpr
      ⟨by decide, by decide, Or.inl (by decide), by decide⟩⟩

/-- C6: `getTrendingProducts n` returns at most `n` rows, all available
rows of the products table, pairwise ordered by likes descending with views
descending breaking like-count ties. -/
theorem getTrendingProducts_spec (db : DB) (n : Nat) :
    (getTrendingProducts db n).length ≤ n ∧
    (∀ p ∈ getTrendingProducts db n, p ∈ db.products ∧ p.isAvailable = true) ∧
    (getTrendingProducts db n).Sorted trendR := by
  refine ⟨?_, ?_, ?_⟩
  · simp only [getTrendingProducts, List.length_take]
    omega
  · intro p hp
    simp only [getTrendingProducts] at hp
    have h1 := (List.take_sublist _ _).subset hp
    rw [List.mem_insertionSort] at h1
    have h2 := List.mem_filter.mp h1
    exact ⟨h2.1, h2.2⟩
  · exact (List.sorted_insertionSort trendR _).sublist (List.take_sublist _ _)

/-- C6 witness: on a two-product table the most-liked available product is
returned within limit 1 and is an available row of the table. -/
theorem getTrendingProducts_spec_witness :
    (⟨"pB", "s", "B", "d", [], true, 9, 0, 1⟩ : Product)
      ∈ getTrendingProducts
          (DB.mk [] [⟨"pA", "s", "A", "d", [], true, 5, 0, 2⟩,
            ⟨"pB", "s", "B", "d", [], true, 9, 0, 1⟩] [] [] [] [] [] 0) 1 ∧
    (⟨"pB", "s", "B", "d", [], true, 9, 0, 1⟩ : Product)
      ∈ (DB.mk [] [⟨"pA", "s", "A", "d", [], true, 5, 0, 2⟩,
          ⟨"pB", "s", "B", "d", [], true, 9, 0, 1⟩] [] [] [] [] [] 0).products ∧
    (⟨"pB", "s", "B", "d", [], true, 9, 0, 1⟩ : Product).isAvailable = true :=
  ⟨by decide,
    ((getTrendingProducts_spec
        (DB.mk [] [⟨"pA", "s", "A", "d", [], true, 5, 0, 2⟩,
          ⟨"pB", "s", "B", "d", [], true, 9, 0, 1⟩] [] [] [] [] [] 0) 1).2.1
      ⟨"pB", "s", "B", "d", [], true, 9, 0, 1⟩ (by decide)).1,
    ((getTrendingProducts_spec
        (DB.mk [] [⟨"pA", "s", "A", "d", [], true, 5, 0, 2⟩,
          ⟨"pB", "s", "B", "d", [], true, 9, 0, 1⟩] [] [] [] [] [] 0) 1).2.1
      ⟨"pB", "s", "B", "d", [], true, 9, 0, 1⟩ (by decide)).2⟩

/-- Bumping a key that is already present leaves the key column of the
frequency table unchanged. -/
theorem map_fst_bumpTag_of_mem (m : List (String × Nat)) (t : String)
    (h : m.any (fun e => e.1 == t) = true) :
    (bumpTag m t).map Prod.fst = m.map Prod.fst := by
  unfold bumpTag
  rw [if_pos h, List.map_map]
  apply List.map_congr_left
  intro e _
  by_cases he1 : e.1 == t <;> simp [he1, Function.comp]

/-- Bumping an absent key appends it to the key column. -/
theorem map_fst_bumpTag_of_not_mem (m : List (String × Nat)) (t : String)
    (h : ¬ (m.any (fun e => e.1 == t) = true)) :
    (bumpTag m t).map Prod.fst = m.map Prod.fst ++ [t] := by
  unfold bumpTag
  rw [if_neg h, List.map_append]
  rfl

/-- A bump preserves distinctness of the keys of the frequency table. -/
theorem bumpTag_nodup (m : List (String × Nat)) (t : String)
    (h : (m.map Prod.fst).Nodup) : ((bumpTag m t).map Prod.fst).Nodup := by
  by_cases ha : m.any (fun e => e.1 == t) = true
  · rw [map_fst_bumpTag_of_mem m t ha]; exact h
  · rw [map_fst_bumpTag_of_not_mem m t ha, List.nodup_append]
    refine ⟨h, List.nodup_singleton t, ?_⟩
    intro x hx hxt
    rw [List.mem_singleton] at hxt
    subst hxt
    rw [List.any_eq_true] at ha
    apply ha
    obtain ⟨e, he, hfst⟩ := List.mem_map.mp hx
    exact ⟨e, he, by simp [hfst]⟩

/-- The keys after a bump are the old keys plus the bumped tag. -/
theorem mem_map_fst_bumpTag (m : List (String × Nat)) (t t' : String) :
    t' ∈ (bumpTag m t).map Prod.fst ↔ t' ∈ m.map Prod.fst ∨ t' = t := by
  by_cases ha : m.any (fun e => e.1 == t) = true
  · rw [map_fst_bumpTag_of_mem m t ha]
    constructor
    · exact Or.inl
    · rintro (h | rfl)
      · exact h
      · obtain ⟨e, he, het⟩ := List.any_eq_true.mp ha
        have he1 : e.1 = t' := by simpa using het
        exact he1 ▸ List.mem_map_of_mem Prod.fst he
  · rw [map_fst_bumpTag_of_not_mem m t ha, List.mem_append, List.mem_singleton]

/-- A bump increments exactly the bumped tag's total count by one (under
distinct keys). -/
theorem keyCount_bumpTag (m : List (String × Nat)) (t t' : String)
    (hnd : (m.map Prod.fst).Nodup) :
    keyCount (bumpTag m t) t' = keyCount m t' + (if t' = t then 1 else 0) := by
  by_cases ha : m.any (fun e => e.1 == t) = true
  · obtain ⟨e, he, het⟩ := List.any_eq_true.mp ha
    have he1 : e.1 = t := by simpa using het
    unfold bumpTag keyCount
    rw [if_pos ha]
    rw [filter_map_pres _ _ ?pres]
    case pres =>
      intro a
      by_cases h1 : a.1 == t <;> simp [h1]
    by_cases htt : t' = t
    · subst htt
      rw [filter_eq_singleton_of_nodup_key Prod.fst m hnd e he _ (fun x => by rw [he1])]
      simp [he1]
    · rw [if_neg htt, Nat.add_zero, List.map_map]
      congr 1
      apply List.map_congr_left
      intro x hx
      have hx1 : x.1 = t' := by simpa using (List.mem_filter.mp hx).2
      have : (x.1 == t) = false := by
        simp only [beq_eq_false_iff_ne, ne_eq, hx1]
        exact htt
      simp [Function.comp, this]
  · unfold bumpTag keyCount
    rw [if_neg ha, List.filter_append, List.map_append, List.sum_append]
    by_cases htt : t' = t
    · subst htt
      simp
    · have : (t == t') = false := by simpa using Ne.symm htt
      simp [htt, this]

/-- Folding a tag list into a distinct-key frequency table keeps the keys
distinct, adds exactly the folded tags to the key set, and adds each tag's
occurrence count to its total. -/
theorem foldl_bumpTag_spec (ts : List String) : ∀ m : List (String × Nat),
    (m.map Prod.fst).Nodup →
    ((ts.foldl bumpTag m).map Prod.fst).Nodup ∧
    (∀ t', t' ∈ (ts.foldl bumpTag m).map Prod.fst ↔ t' ∈ m.map Prod.fst ∨ t' ∈ ts) ∧
    (∀ t', keyCount (ts.foldl bumpTag m) t' = keyCount m t' + tagOcc ts t') := by
  induction ts with
  | nil =>
    intro m h
    refine ⟨h, fun t' => ?_, fun t' => ?_⟩
    · simp
    · simp [tagOcc]
  | cons t ts ih =>
    intro m h
    obtain ⟨ih1, ih2, ih3⟩ := ih (bumpTag m t) (bumpTag_nodup m t h)
    simp only [List.foldl_cons]
    refine ⟨ih1, fun t' => ?_, fun t' => ?_⟩
    · rw [ih2 t', mem_map_fst_bumpTag m t t', List.mem_cons]
      tauto
    · rw [ih3 t', keyCount_bumpTag m t t' h]
      have hocc : tagOcc (t :: ts) t' = (if t' = t then 1 else 0) + tagOcc ts t' := by
        unfold tagOcc
        by_cases htt : t' = t
        · subst htt
          rw [List.filter_cons_of_pos (by simp), if_pos rfl]
          simp only [List.length_cons]
          omega
        · rw [List.filter_cons_of_neg (by simpa using Ne.symm htt)]
          simp [htt]
      rw [hocc]
      omega

/-- The nested product/tag loop of `getTrendingHashtags` equals a single
fold over the concatenated tag lists. -/
theorem hashtagCounts_eq_foldl_flat (ps : List Product) :
    ∀ m, ps.foldl (fun m p => p.hashtags.foldl bumpTag m) m
      = (ps.foldr (fun p acc => p.hashtags ++ acc) []).foldl bumpTag m := by
  induction ps with
  | nil => intro m; rfl
  | cons p ps ih =>
    intro m
    simp only [List.foldl_cons, List.foldr_cons, List.foldl_append]
    exact ih _

/-- Under distinct keys, an entry of the frequency table carries exactly
its key's total count. -/
theorem keyCount_of_mem (m : List (String × Nat)) (hnd : (m.map Prod.fst).Nodup)
    (e : String × Nat) (he : e ∈ m) : keyCount m e.1 = e.2 := by
  unfold keyCount
  rw [filter_eq_singleton_of_nodup_key Prod.fst m hnd e he _ (fun x => rfl)]
  simp

/-- C7: `getTrendingHashtags` truncates to the limit a table holding one
entry per distinct hashtag of the available products, each entry's count
being that hashtag's occurrence frequency, sorted by count descending; the
result length is the minimum of the limit and the number of distinct
hashtags. -/
theorem getTrendingHashtags_spec (db : DB) (limit : Nat) :
    getTrendingHashtags db limit = (trendingHashtagsFull db).take limit ∧
    ((trendingHashtagsFull db).map Prod.fst).Nodup ∧
    (∀ t, t ∈ (trendingHashtagsFull db).map Prod.fst ↔ t ∈ availableTags db) ∧
    (∀ e ∈ trendingHashtagsFull db, e.2 = tagFrequency db e.1) ∧
    (trendingHashtagsFull db).Sorted countGeR ∧
    (getTrendingHashtags db limit).length = min limit (availableTags db).dedup.length := by
  have hflat : hashtagCounts (db.products.filter (fun p => p.isAvailable))
      = (availableTags db).foldl bumpTag [] := by
    unfold hashtagCounts availableTags
    exact hashtagCounts_eq_foldl_flat _ []
  obtain ⟨hnod, hmem, hcnt⟩ := foldl_bumpTag_spec (availableTags db) [] (by simp)
  have hmem' : ∀ t', t' ∈ ((availableTags db).foldl bumpTag []).map Prod.fst
      ↔ t' ∈ availableTags db := by
    intro t'
    rw [hmem t']
    simp
  have hperm : List.Perm (trendingHashtagsFull db) ((availableTags db).foldl bumpTag []) := by
    unfold trendingHashtagsFull
    rw [hflat]
    exact List.perm_insertionSort countGeR _
  have hkeysperm : List.Perm ((trendingHashtagsFull db).map Prod.fst)
      (((availableTags db).foldl bumpTag []).map Prod.fst) := hperm.map Prod.fst
  have hnodupFull : ((trendingHashtagsFull db).map Prod.fst).Nodup :=
    hkeysperm.nodup_iff.mpr hnod
  refine ⟨rfl, hnodupFull, ?_, ?_, ?_, ?_⟩
  · intro t
    rw [hkeysperm.mem_iff, hmem' t]
  · intro e he
    have he' : e ∈ (availableTags db).foldl bumpTag [] := hperm.mem_iff.mp he
    have hk := keyCount_of_mem _ hnod e he'
    rw [hcnt e.1] at hk
    have hz : keyCount ([] : List (String × Nat)) e.1 = 0 := rfl
    rw [hz, Nat.zero_add] at hk
    exact hk.symm
  · unfold trendingHashtagsFull
    exact List.sorted_insertionSort countGeR _
  · unfold getTrendingHashtags
    rw [List.length_take]
    congr 1
    rw [hperm.length_eq, ← List.length_map _ Prod.fst]
    have hpermkeys : List.Perm (((availableTags db).foldl bumpTag []).map Prod.fst)
        ((availableTags db).dedup) := by
      rw [List.perm_ext_iff_of_nodup hnod (List.nodup_dedup _)]
      intro t
      rw [hmem' t, List.mem_dedup]
    exact hpermkeys.length_eq

/-- C7 witness: over products carrying tags a, b, a the entry (a, 2) is in
the full table with count equal to the live frequency of a. -/
theorem getTrendingHashtags_spec_witness :
    (("a", 2) : String × Nat)
      ∈ trendingHashtagsFull
          (DB.mk [] [⟨"p1", "s", "T", "D", ["a", "b"], true, 0, 0, 1⟩,
            ⟨"p2", "s", "T", "D", ["a"], true, 0, 0, 2⟩] [] [] [] [] [] 0) ∧
    (("a", 2) : String × Nat).2
      = tagFrequency
          (DB.mk [] [⟨"p1", "s", "T", "D", ["a", "b"], true, 0, 0, 1⟩,
            ⟨"p2", "s", "T", "D", ["a"], true, 0, 0, 2⟩] [] [] [] [] [] 0)
          (("a", 2) : String × Nat).1 :=
  ⟨by decide,
    (getTrendingHashtags_spec
        (DB.mk [] [⟨"p1", "s", "T", "D", ["a", "b"], true, 0, 0, 1⟩,
          ⟨"p2", "s", "T", "D", ["a"], true, 0, 0, 2⟩] [] [] [] [] [] 0) 5).2.2.2.1
      ("a", 2) (by decide)⟩

end NewL
